import Mathlib

/-!
Verification of the serial packet protocol in `b4.py` (the
`send_and_receive` half of the repository): the CRC-8 checksum engine
`calculate_crc`, the frame encoder `send_data`, the byte-stream decoder
`receive_data`, and the receiver loop `receive_thread_task`.

The serial link is modelled as a finite list of byte values: a one-byte
read takes the head of the list, and an exhausted list means the read
timed out. Python integers are `Nat` for wire bytes (with explicit
masking where the source masks) and `Int` for the payload values handed
to the encoder, which may be out of byte range before clamping.
-/

set_option maxRecDepth 8000

namespace B4

/-- Packet start marker, `START_BYTE = 0xAA` in the source. -/
def START_BYTE : Nat := 0xAA

/-- Packet end marker, `END_BYTE = 0x55` in the source. -/
def END_BYTE : Nat := 0x55

/-- `MIN_PWM = 0` in the source. -/
def MIN_PWM : Nat := 0

/-- `MAX_PWM = 255` in the source. -/
def MAX_PWM : Nat := 255

/-- One iteration of the inner loop of `calculate_crc` (lines 234-238 of
`b4.py`): if the top bit of the accumulator is set, shift left and XOR the
polynomial `0x07`, otherwise just shift left; in both cases the source then
masks with `crc &= 0xFF`. -/
def crcRound (crc : Nat) : Nat :=
  (if crc &&& 0x80 ≠ 0 then (crc <<< 1) ^^^ 0x07 else crc <<< 1) &&& 0xFF

/-- `n` iterations of `crcRound`; the source runs exactly 8 per input byte. -/
def crcRounds : Nat → Nat → Nat
  | 0, crc => crc
  | n + 1, crc => crcRounds n (crcRound crc)

/-- CRC-8 checksum engine `calculate_crc` from `b4.py` lines 224-239:
accumulator starts at 0; each input byte is XORed in and then the 8-round
shift loop runs. -/
def calculate_crc (data : List Nat) : Nat :=
  data.foldl (fun crc byte => crcRounds 8 (crc ^^^ byte)) 0

/-- One round of the checksum algorithm as the specification words it:
if the most significant bit of the 8-bit accumulator is set, shift left by
one and XOR with the generator constant `0x07`, masking to 8 bits; else
shift left by one, masking to 8 bits. Stated with `Nat.testBit` for the
most-significant-bit test and `% 256` for the 8-bit mask, to be compared
with the source-derived `crcRound`. -/
def crc8SpecRound (crc : Nat) : Nat :=
  if Nat.testBit crc 7 then ((crc <<< 1) ^^^ 0x07) % 256 else (crc <<< 1) % 256

/-- `n` iterations of the specification's round. -/
def crc8SpecRounds : Nat → Nat → Nat
  | 0, crc => crc
  | n + 1, crc => crc8SpecRounds n (crc8SpecRound crc)

/-- The checksum as the specification describes it: accumulator initialized
to 0; for each input byte, XOR it into the accumulator, then 8 iterations of
`crc8SpecRound`. -/
def crc8Spec (data : List Nat) : Nat :=
  data.foldl (fun crc byte => crc8SpecRounds 8 (crc ^^^ byte)) 0

lemma and_255_eq_mod (x : Nat) : x &&& 0xFF = x % 256 := by
  have h := Nat.and_pow_two_sub_one_eq_mod x 8
  norm_num at h
  exact h

lemma and_128_ne_zero_iff (x : Nat) : x &&& 0x80 ≠ 0 ↔ Nat.testBit x 7 = true := by
  have h : (0x80 : Nat) = 2 ^ 7 := by norm_num
  rw [h, Nat.and_two_pow]
  cases hb : Nat.testBit x 7 <;> simp [hb]

lemma crcRound_eq_specRound (crc : Nat) : crcRound crc = crc8SpecRound crc := by
  unfold crcRound crc8SpecRound
  rw [and_255_eq_mod]
  by_cases h : crc &&& 0x80 ≠ 0
  · rw [if_pos h, if_pos ((and_128_ne_zero_iff crc).mp h)]
  · rw [if_neg h]
    have hb : ¬ Nat.testBit crc 7 = true := fun hc => h ((and_128_ne_zero_iff crc).mpr hc)
    rw [if_neg hb]

lemma crcRounds_eq_specRounds (n crc : Nat) : crcRounds n crc = crc8SpecRounds n crc := by
  induction n generalizing crc with
  | zero => rfl
  | succ k ih =>
    unfold crcRounds crc8SpecRounds
    rw [crcRound_eq_specRound, ih]

/-- C2: the checksum engine `calculate_crc` computes, for every byte
sequence, exactly the CRC-8 the specification describes: accumulator 0,
XOR each byte in, then 8 MSB-first shift rounds with generator `0x07`
masked to 8 bits (no reflection, no final XOR). -/
theorem calculate_crc_eq_spec (data : List Nat) : calculate_crc data = crc8Spec data := by
  unfold calculate_crc crc8Spec
  have h : (fun (crc byte : Nat) => crcRounds 8 (crc ^^^ byte))
      = fun (crc byte : Nat) => crc8SpecRounds 8 (crc ^^^ byte) := by
    funext crc byte
    exact crcRounds_eq_specRounds 8 (crc ^^^ byte)
  rw [h]

/-- Clamping of one payload value in `send_data` (lines 267-274): values
below `MIN_PWM` become `MIN_PWM`, values above `MAX_PWM` become `MAX_PWM`,
everything else passes through. -/
def clampPWM (pwm : Int) : Nat :=
  if pwm < (MIN_PWM : Int) then MIN_PWM
  else if pwm > (MAX_PWM : Int) then MAX_PWM
  else pwm.toNat

/-- Frame encoder `send_data` from `b4.py` lines 242-292. The source
computes `crc_data = bytes([data_length] + pwm_values)` (line 278) before
any byte is written to the link; when the payload has more than 255 values
that call raises `ValueError` (the length does not fit a byte) and nothing
reaches the wire, modelled as `none`. Otherwise the bytes written, in
order, are: start marker, payload length, clamped payload values, CRC over
length plus clamped payload, end marker. -/
def send_data (data : List Int) : Option (List Nat) :=
  if data.length > 255 then none
  else some (START_BYTE :: data.length ::
    (data.map clampPWM ++ [calculate_crc (data.length :: data.map clampPWM), END_BYTE]))

/-- Decode outcomes. The source's `receive_data` returns a pair
`(payload array, acknowledgement bool)`; each distinct return site of the
function corresponds to one status of the specification's `DecodeOutcome`,
recorded here alongside the returned pair. -/
inductive Status where
  | Success
  | CrcMismatch
  | RangeError
  | Desync
  | Timeout
deriving DecidableEq, Repr

/-- The decoder's result: the returned payload, the acknowledgement flag,
and the status identifying which return site of `receive_data` produced it. -/
structure DecodeOutcome where
  payload : List Nat
  acknowledgement : Bool
  status : Status
deriving DecidableEq, Repr

/-- Step 1 of `receive_data` (lines 309-314): read bytes until the start
marker appears, returning the stream after it; `none` models the read
timing out with no start marker found. -/
def seekStart : List Nat → Option (List Nat)
  | [] => none
  | b :: rest => if b = START_BYTE then some rest else seekStart rest

/-- Reading `n` single bytes from the stream (the loop of step 3, lines
327-332): `none` models a timeout before all `n` bytes arrived. -/
def readBytes : Nat → List Nat → Option (List Nat × List Nat)
  | 0, s => some ([], s)
  | _ + 1, [] => none
  | n + 1, b :: s =>
    match readBytes n s with
    | none => none
    | some (bs, r) => some (b :: bs, r)

/-- Steps 6-8 of `receive_data` (lines 345-368): CRC validation, then the
range re-validation of every payload byte, then success. -/
def validateFrame (data_length : Nat) (pwm_values : List Nat) (received_crc : Nat) :
    DecodeOutcome :=
  if calculate_crc (data_length :: pwm_values) ≠ received_crc then
    ⟨pwm_values, false, Status.CrcMismatch⟩
  else if pwm_values.any (fun pwm => decide (pwm < MIN_PWM) || decide (pwm > MAX_PWM)) then
    ⟨pwm_values, false, Status.RangeError⟩
  else
    ⟨pwm_values, true, Status.Success⟩

/-- Step 5 of `receive_data` (lines 341-343): read the end byte; a timeout
or a byte other than the end marker is the same return site in the source
(the specification calls it `Desync`). -/
def readEnd (data_length : Nat) (pwm_values : List Nat) (received_crc : Nat) :
    List Nat → DecodeOutcome
  | [] => ⟨[], false, Status.Desync⟩
  | end_byte :: _ =>
    if end_byte ≠ END_BYTE then ⟨[], false, Status.Desync⟩
    else validateFrame data_length pwm_values received_crc

/-- Step 4 of `receive_data` (lines 335-338): read the CRC byte; timeout
returns the empty payload. -/
def readChecksum (data_length : Nat) (pwm_values : List Nat) : List Nat → DecodeOutcome
  | [] => ⟨[], false, Status.Timeout⟩
  | received_crc :: s => readEnd data_length pwm_values received_crc s

/-- Step 3 of `receive_data` (lines 326-332): read `data_length` payload
bytes; on a timeout the source returns `np.array([]), False`, discarding
the bytes read so far. -/
def readPayload (data_length : Nat) (s : List Nat) : DecodeOutcome :=
  match readBytes data_length s with
  | none => ⟨[], false, Status.Timeout⟩
  | some (pwm_values, s3) => readChecksum data_length pwm_values s3

/-- Step 2 of `receive_data` (lines 317-324): read the length byte and
apply the sanity bound `1 ≤ data_length ≤ 200`. -/
def readLength : List Nat → DecodeOutcome
  | [] => ⟨[], false, Status.Timeout⟩
  | data_length :: s =>
    if data_length = 0 ∨ data_length > 200 then ⟨[], false, Status.Desync⟩
    else readPayload data_length s

/-- Frame decoder `receive_data` from `b4.py` lines 295-374, over a stream
of bytes; an exhausted stream models every subsequent read timing out. -/
def receive_data (stream : List Nat) : DecodeOutcome :=
  match seekStart stream with
  | none => ⟨[], false, Status.Timeout⟩
  | some s1 => readLength s1

lemma readBytes_append (p rest : List Nat) :
    readBytes p.length (p ++ rest) = some (p, rest) := by
  induction p with
  | nil => rfl
  | cons b q ih => simp [readBytes, ih]

lemma readBytes_short {n : Nat} (p : List Nat) (h : p.length < n) :
    readBytes n p = none := by
  induction p generalizing n with
  | nil =>
    match n, h with
    | m + 1, _ => rfl
  | cons b q ih =>
    match n, h with
    | m + 1, h =>
      have hq : q.length < m := by simpa using h
      simp [readBytes, ih hq]

lemma seekStart_cons_start (s : List Nat) :
    seekStart (START_BYTE :: s) = some s := by
  simp [seekStart]

lemma seekStart_noise (noise s : List Nat) (h : ∀ b ∈ noise, b ≠ START_BYTE) :
    seekStart (noise ++ START_BYTE :: s) = some s := by
  induction noise with
  | nil => exact seekStart_cons_start s
  | cons b q ih =>
    have hb : b ≠ START_BYTE := h b (List.mem_cons_self b q)
    have hq : ∀ x ∈ q, x ≠ START_BYTE := fun x hx => h x (List.mem_cons_of_mem b hx)
    simp [seekStart, hb, ih hq]

lemma receive_data_frame (p : List Nat) (c e : Nat) (rest : List Nat)
    (h1 : p.length ≠ 0) (h2 : p.length ≤ 200) :
    receive_data (START_BYTE :: p.length :: (p ++ c :: e :: rest)) =
      if e ≠ END_BYTE then ⟨[], false, Status.Desync⟩
      else validateFrame p.length p c := by
  have hcond : ¬ (p.length = 0 ∨ p.length > 200) := by omega
  simp only [receive_data, seekStart_cons_start, readLength, hcond, if_false,
    readPayload, readBytes_append, readChecksum, readEnd]

lemma validateFrame_success (p : List Nat) (L : Nat) (h : ∀ b ∈ p, b ≤ 255) :
    validateFrame L p (calculate_crc (L :: p)) = ⟨p, true, Status.Success⟩ := by
  unfold validateFrame
  rw [if_neg (by exact fun hne => hne rfl)]
  have hany : p.any (fun pwm => decide (pwm < MIN_PWM) || decide (pwm > MAX_PWM)) = false := by
    rw [List.any_eq_false]
    intro x hx
    have hb : x ≤ 255 := h x hx
    simp [MIN_PWM, MAX_PWM]
    omega
  rw [hany]
  rfl

lemma decode_encode (p : List Nat) (rest : List Nat)
    (h1 : p.length ≠ 0) (h2 : p.length ≤ 200) (h3 : ∀ b ∈ p, b ≤ 255) :
    receive_data (START_BYTE :: p.length ::
        (p ++ calculate_crc (p.length :: p) :: END_BYTE :: rest)) =
      ⟨p, true, Status.Success⟩ := by
  rw [receive_data_frame p _ END_BYTE rest h1 h2]
  rw [if_neg (by exact fun hne => hne rfl)]
  exact validateFrame_success p p.length h3

lemma clampPWM_ofNat (b : Nat) (h : b ≤ 255) : clampPWM (Int.ofNat b) = b := by
  unfold clampPWM
  rw [if_neg (by simp [MIN_PWM]), if_neg (by simp [MAX_PWM]; exact_mod_cast h)]
  rfl

lemma send_data_of_bytes (p : List Nat) (hlen : p.length ≤ 255) (h : ∀ b ∈ p, b ≤ 255) :
    send_data (p.map Int.ofNat) =
      some (START_BYTE :: p.length :: (p ++ [calculate_crc (p.length :: p), END_BYTE])) := by
  unfold send_data
  have hmap : (p.map Int.ofNat).map clampPWM = p := by
    rw [List.map_map]
    have : ∀ b ∈ p, (clampPWM ∘ Int.ofNat) b = id b := by
      intro b hb
      exact clampPWM_ofNat b (h b hb)
    rw [List.map_congr_left this, List.map_id]
  rw [hmap, List.length_map, if_neg (by omega)]

/-- C1: round trip — for every payload `p` with `1 ≤ len p ≤ 200` and all
elements in `[0, 255]`, the encoder `send_data` produces an exact byte
sequence (no error is raised at these lengths), and decoding that sequence
over a lossless link yields the `Success` outcome (acknowledgement `true`)
with the recovered payload equal to `p`. -/
theorem round_trip (p : List Nat) (h1 : 1 ≤ p.length) (h2 : p.length ≤ 200)
    (h3 : ∀ b ∈ p, b ≤ 255) :
    ∃ frame, send_data (p.map Int.ofNat) = some frame ∧
      receive_data frame = ⟨p, true, Status.Success⟩ := by
  refine ⟨_, send_data_of_bytes p (by omega) h3, ?_⟩
  exact decode_encode p [] (by omega) h2 h3

/-- Witness for C1 at the spec's concrete example payload `[10, 20, 30]`. -/
theorem round_trip_witness :
    send_data ([10, 20, 30].map Int.ofNat) = some [0xAA, 3, 10, 20, 30, 228, 0x55] ∧
    receive_data [0xAA, 3, 10, 20, 30, 228, 0x55] = ⟨[10, 20, 30], true, Status.Success⟩ := by
  obtain ⟨frame, hf, hd⟩ := round_trip [10, 20, 30] (by decide) (by decide) (by decide)
  have he : send_data ([10, 20, 30].map Int.ofNat) =
      some [0xAA, 3, 10, 20, 30, 228, 0x55] := by decide
  rw [he] at hf
  have hfr : frame = [0xAA, 3, 10, 20, 30, 228, 0x55] := (Option.some.inj hf).symm
  rw [hfr] at hd
  exact ⟨he, hd⟩

lemma receive_data_after_noise (noise s : List Nat) (h : ∀ b ∈ noise, b ≠ START_BYTE) :
    receive_data (noise ++ START_BYTE :: s) = receive_data (START_BYTE :: s) := by
  unfold receive_data
  rw [seekStart_noise noise s h, seekStart_cons_start]

/-- C7: resynchronization — a stream made of any finite run of non-start
bytes followed by the valid frame produced by `send_data` decodes to
`Success` with the frame's payload: the decoder discards all the leading
noise instead of failing on it. -/
theorem resynchronization (noise p : List Nat)
    (hn : ∀ b ∈ noise, b ≠ START_BYTE)
    (h1 : 1 ≤ p.length) (h2 : p.length ≤ 200) (h3 : ∀ b ∈ p, b ≤ 255) :
    ∃ frame, send_data (p.map Int.ofNat) = some frame ∧
      receive_data (noise ++ frame) = ⟨p, true, Status.Success⟩ := by
  refine ⟨_, send_data_of_bytes p (by omega) h3, ?_⟩
  rw [receive_data_after_noise noise _ hn]
  exact decode_encode p [] (by omega) h2 h3

/-- Witness for C7: three noise bytes then the frame for `[10, 20, 30]`. -/
theorem resynchronization_witness :
    send_data ([10, 20, 30].map Int.ofNat) = some [0xAA, 3, 10, 20, 30, 228, 0x55] ∧
    receive_data ([1, 2, 9] ++ [0xAA, 3, 10, 20, 30, 228, 0x55]) =
      ⟨[10, 20, 30], true, Status.Success⟩ := by
  obtain ⟨frame, hf, hd⟩ :=
    resynchronization [1, 2, 9] [10, 20, 30] (by decide) (by decide) (by decide) (by decide)
  have he : send_data ([10, 20, 30].map Int.ofNat) =
      some [0xAA, 3, 10, 20, 30, 228, 0x55] := by decide
  rw [he] at hf
  have hfr : frame = [0xAA, 3, 10, 20, 30, 228, 0x55] := (Option.some.inj hf).symm
  rw [hfr] at hd
  exact ⟨he, hd⟩

/-- C5: length boundary enforcement — after a start marker, a length byte
of `0` or any value above `200` ends the decode in `Desync` with no payload
read, while a length byte of `200` is accepted structurally and the decoder
goes on to read 200 payload bytes (here all the way to `Success` on a
well-formed frame of length 200). -/
theorem length_boundary :
    (∀ rest : List Nat,
      receive_data (START_BYTE :: 0 :: rest) = ⟨[], false, Status.Desync⟩) ∧
    (∀ (L : Nat) (rest : List Nat), 200 < L →
      receive_data (START_BYTE :: L :: rest) = ⟨[], false, Status.Desync⟩) ∧
    (∀ (p : List Nat) (rest : List Nat), p.length = 200 → (∀ b ∈ p, b ≤ 255) →
      receive_data (START_BYTE :: 200 ::
          (p ++ calculate_crc (200 :: p) :: END_BYTE :: rest)) =
        ⟨p, true, Status.Success⟩) := by
  refine ⟨?_, ?_, ?_⟩
  · intro rest
    simp [receive_data, seekStart_cons_start, readLength]
  · intro L rest hL
    have hcond : L = 0 ∨ L > 200 := Or.inr hL
    simp [receive_data, seekStart_cons_start, readLength, hcond]
  · intro p rest hlen hbytes
    have h := decode_encode p rest (by omega) (by omega) hbytes
    rw [hlen] at h
    exact h

/-- Witness for C5: a concrete stream for each of the three conjuncts,
with the length-200 frame taken over the all-zero payload. -/
theorem length_boundary_witness :
    receive_data (START_BYTE :: 0 :: [1, 2, 3]) = ⟨[], false, Status.Desync⟩ ∧
    receive_data (START_BYTE :: 201 :: [1, 2, 3]) = ⟨[], false, Status.Desync⟩ ∧
    receive_data (START_BYTE :: 200 ::
        (List.replicate 200 0 ++
          calculate_crc (200 :: List.replicate 200 0) :: END_BYTE :: [])) =
      ⟨List.replicate 200 0, true, Status.Success⟩ :=
  ⟨length_boundary.1 [1, 2, 3],
   length_boundary.2.1 201 [1, 2, 3] (by decide),
   length_boundary.2.2 (List.replicate 200 0) [] (by simp)
     (fun b hb => by
       have := List.eq_of_mem_replicate hb
       omega)⟩

lemma xor_pow_ne (a b : Nat) (hb : b ≠ 0) : a ^^^ b ≠ a := by
  intro h
  have h2 : a ^^^ (a ^^^ b) = a ^^^ a := by rw [h]
  rw [← Nat.xor_assoc, Nat.xor_self, Nat.zero_xor] at h2
  exact hb h2

/-- C6: single-bit corruption detection — for every valid payload and every
one of the 8 bit positions of the checksum byte, decoding the encoder's
frame with exactly that bit of the checksum byte flipped (XOR with
`1 <<< i`) yields the `CrcMismatch` outcome with the read payload attached. -/
theorem crc_single_bit_detection (p : List Nat) (i : Nat)
    (h1 : 1 ≤ p.length) (h2 : p.length ≤ 200) (h3 : ∀ b ∈ p, b ≤ 255) (hi : i < 8) :
    receive_data (START_BYTE :: p.length ::
        (p ++ (calculate_crc (p.length :: p) ^^^ (1 <<< i)) :: END_BYTE :: [])) =
      ⟨p, false, Status.CrcMismatch⟩ := by
  rw [receive_data_frame p _ END_BYTE [] (by omega) h2]
  rw [if_neg (by exact fun hne => hne rfl)]
  unfold validateFrame
  have hflip : calculate_crc (p.length :: p) ≠
      calculate_crc (p.length :: p) ^^^ (1 <<< i) := by
    have hpow : (1 <<< i : Nat) ≠ 0 := by
      rw [Nat.shiftLeft_eq, Nat.one_mul]
      positivity
    exact fun h => xor_pow_ne (calculate_crc (p.length :: p)) (1 <<< i) hpow h.symm
  rw [if_pos hflip]

/-- Witness for C6: payload `[10, 20, 30]`, flipping bit 0 of the checksum. -/
theorem crc_single_bit_detection_witness :
    receive_data (START_BYTE :: 3 ::
        ([10, 20, 30] ++ (calculate_crc (3 :: [10, 20, 30]) ^^^ (1 <<< 0)) :: END_BYTE :: [])) =
      ⟨[10, 20, 30], false, Status.CrcMismatch⟩ :=
  crc_single_bit_detection [10, 20, 30] 0 (by decide) (by decide) (by decide) (by decide)

/-- C10: implicit — when a complete structural frame is read but the byte
at the end-marker position is not `0x55`, the decoder returns the `Desync`
outcome with an empty payload, discarding the payload bytes already read;
by contrast, a checksum mismatch (with a good end marker) returns the read
payload with the `CrcMismatch` outcome. -/
theorem desync_discards_payload :
    (∀ (p : List Nat) (c e : Nat) (rest : List Nat),
      1 ≤ p.length → p.length ≤ 200 → e ≠ END_BYTE →
      receive_data (START_BYTE :: p.length :: (p ++ c :: e :: rest)) =
        ⟨[], false, Status.Desync⟩) ∧
    (∀ (p : List Nat) (c : Nat) (rest : List Nat),
      1 ≤ p.length → p.length ≤ 200 → c ≠ calculate_crc (p.length :: p) →
      receive_data (START_BYTE :: p.length :: (p ++ c :: END_BYTE :: rest)) =
        ⟨p, false, Status.CrcMismatch⟩) := by
  constructor
  · intro p c e rest h1 h2 he
    rw [receive_data_frame p c e rest (by omega) h2, if_pos he]
  · intro p c rest h1 h2 hc
    rw [receive_data_frame p c END_BYTE rest (by omega) h2]
    rw [if_neg (by exact fun hne => hne rfl)]
    unfold validateFrame
    rw [if_pos (fun h => hc h.symm)]

/-- Witness for C10: the frame for `[10, 20, 30]` with end byte `0`
(payload dropped), and the same frame with checksum byte `0` in place of
the correct one (payload kept). -/
theorem desync_discards_payload_witness :
    receive_data (START_BYTE :: 3 :: ([10, 20, 30] ++ 228 :: 0 :: [])) =
      ⟨[], false, Status.Desync⟩ ∧
    receive_data (START_BYTE :: 3 :: ([10, 20, 30] ++ 0 :: END_BYTE :: [])) =
      ⟨[10, 20, 30], false, Status.CrcMismatch⟩ :=
  ⟨desync_discards_payload.1 [10, 20, 30] 228 0 [] (by decide) (by decide) (by decide),
   desync_discards_payload.2 [10, 20, 30] 0 [] (by decide) (by decide) (by decide)⟩

/-- C4 counterexample: on the stream `0xAA, 3, 7` — start marker, valid
length 3, a single payload byte 7, then timeout — the source returns the
empty array, not the partial payload `[7]` the claim says is attached. -/
theorem timeout_partial_payload_cex :
    (receive_data [0xAA, 3, 7]).payload ≠ [7] ∧
    receive_data [0xAA, 3, 7] = ⟨[], false, Status.Timeout⟩ := by
  constructor
  · decide
  · decide

/-- C4 amended: a stream with a start marker, a valid length `L`, and fewer
than `L` payload bytes before the read times out makes `receive_data`
return the `Timeout` outcome with an EMPTY payload — the partial payload is
discarded, matching the source's docstring "empty if error". -/
theorem timeout_empty_payload (L : Nat) (p : List Nat)
    (h1 : 1 ≤ L) (h2 : L ≤ 200) (h3 : p.length < L) :
    receive_data (START_BYTE :: L :: p) = ⟨[], false, Status.Timeout⟩ := by
  have hcond : ¬ (L = 0 ∨ L > 200) := by omega
  simp only [receive_data, seekStart_cons_start, readLength, hcond, if_false,
    readPayload, readBytes_short p h3]

/-- Witness for the amended C4 at the counterexample's stream. -/
theorem timeout_empty_payload_witness :
    receive_data (START_BYTE :: 3 :: [7]) = ⟨[], false, Status.Timeout⟩ :=
  timeout_empty_payload 3 [7] (by decide) (by decide) (by decide)

lemma seekStart_mem {s t : List Nat} (h : seekStart s = some t) :
    ∀ b ∈ t, b ∈ s := by
  induction s with
  | nil => simp [seekStart] at h
  | cons a q ih =>
    by_cases ha : a = START_BYTE
    · rw [seekStart, if_pos ha] at h
      obtain rfl : q = t := Option.some.inj h
      exact fun b hb => List.mem_cons_of_mem a hb
    · rw [seekStart, if_neg ha] at h
      exact fun b hb => List.mem_cons_of_mem a (ih h b hb)

lemma readBytes_mem {n : Nat} {s bs r : List Nat} (h : readBytes n s = some (bs, r)) :
    ∀ b ∈ bs, b ∈ s := by
  induction n generalizing s bs r with
  | zero =>
    rw [readBytes] at h
    obtain ⟨rfl, rfl⟩ : [] = bs ∧ s = r := by
      have := Option.some.inj h
      exact ⟨congrArg Prod.fst this, congrArg Prod.snd this⟩
    intro b hb
    simp at hb
  | succ m ih =>
    match s with
    | [] => exact absurd h (by simp [readBytes])
    | a :: q =>
      rw [readBytes] at h
      match hrec : readBytes m q with
      | none => rw [hrec] at h; exact absurd h (by simp)
      | some (bs2, r2) =>
        rw [hrec] at h
        have hpair := Option.some.inj h
        have hbs : a :: bs2 = bs := congrArg Prod.fst hpair
        intro b hb
        rw [← hbs] at hb
        rcases List.mem_cons.mp hb with hba | hbq
        · exact hba ▸ List.mem_cons_self a q
        · exact List.mem_cons_of_mem a (ih hrec b hbq)

lemma validateFrame_not_range (L c : Nat) (pwm : List Nat) (h : ∀ b ∈ pwm, b ≤ 255) :
    (validateFrame L pwm c).status ≠ Status.RangeError := by
  unfold validateFrame
  split
  · exact fun hc => Status.noConfusion hc
  · split
    · next hany =>
      exfalso
      obtain ⟨x, hx, hpx⟩ := List.any_eq_true.mp hany
      have hx255 : x ≤ 255 := h x hx
      simp [MIN_PWM, MAX_PWM] at hpx
      omega
    · exact fun hc => Status.noConfusion hc

/-- C9: `RangeError` unreachability — for every input byte stream whose
reads all deliver bytes in `[0, 255]`, the decoder's payload
range-validation branch is never taken: `receive_data` never returns the
`RangeError` status. -/
theorem range_error_unreachable (stream : List Nat) (h : ∀ b ∈ stream, b ≤ 255) :
    (receive_data stream).status ≠ Status.RangeError := by
  unfold receive_data
  match hseek : seekStart stream with
  | none => exact fun hc => Status.noConfusion hc
  | some s1 =>
    have hs1 : ∀ b ∈ s1, b ≤ 255 := fun b hb => h b (seekStart_mem hseek b hb)
    match s1, hs1 with
    | [], _ => exact fun hc => Status.noConfusion hc
    | L :: s2, hs1 =>
      have hs2 : ∀ b ∈ s2, b ≤ 255 := fun b hb => hs1 b (List.mem_cons_of_mem L hb)
      simp only [readLength]
      split
      · exact fun hc => Status.noConfusion hc
      · simp only [readPayload]
        match hrb : readBytes L s2 with
        | none => exact fun hc => Status.noConfusion hc
        | some (pwm, s3) =>
          have hpwm : ∀ b ∈ pwm, b ≤ 255 := fun b hb => hs2 b (readBytes_mem hrb b hb)
          match s3 with
          | [] => exact fun hc => Status.noConfusion hc
          | c :: s4 =>
            simp only [readChecksum]
            match s4 with
            | [] => exact fun hc => Status.noConfusion hc
            | e :: s5 =>
              simp only [readEnd]
              split
              · exact fun hc => Status.noConfusion hc
              · exact validateFrame_not_range L c pwm hpwm

/-- Witness for C9 on a concrete all-byte stream: a full valid frame. -/
theorem range_error_unreachable_witness :
    (receive_data [0xAA, 3, 10, 20, 30, 228, 0x55]).status ≠ Status.RangeError :=
  range_error_unreachable [0xAA, 3, 10, 20, 30, 228, 0x55] (by decide)

lemma send_data_eq_some (data : List Int) (hlen : data.length ≤ 255) :
    send_data data = some (START_BYTE :: data.length ::
      (data.map clampPWM ++
        [calculate_crc (data.length :: data.map clampPWM), END_BYTE])) := by
  unfold send_data
  rw [if_neg (by omega)]

lemma frame_getElem (data : List Int) (i : Nat) (v : Int) (hv : data[i]? = some v) :
    (START_BYTE :: data.length ::
      (data.map clampPWM ++
        [calculate_crc (data.length :: data.map clampPWM), END_BYTE]))[2 + i]? =
      some (clampPWM v) := by
  have hlen : i < data.length := by
    by_contra hge
    rw [List.getElem?_eq_none (by omega)] at hv
    exact Option.noConfusion hv
  rw [show 2 + i = (i + 1) + 1 from by omega,
    List.getElem?_cons_succ, List.getElem?_cons_succ,
    List.getElem?_append_left (by simpa using hlen), List.getElem?_map, hv]
  rfl

/-- C8 counterexample: the claim quantifies over every input payload, but
for the payload of 256 copies of `-5` the source raises `ValueError` at
`bytes([data_length] + pwm_values)` (line 278) and writes nothing — no
wire byte 0 is ever produced for those `-5` values. -/
theorem encoder_clamping_cex :
    send_data (List.replicate 256 (-5)) = none := by
  unfold send_data
  rw [if_pos (by simp)]

/-- C8 amended: for every input payload of at most 255 values (beyond
that the encoder raises an error before writing anything), the encoder
produces a frame in which each value below 0 appears as wire byte 0, each
value above 255 as wire byte 255, and each value already in `[0, 255]`
unchanged — silently, with no error at this length. -/
theorem encoder_clamping (data : List Int) (hlen : data.length ≤ 255)
    (i : Nat) (v : Int) (hv : data[i]? = some v) :
    ∃ frame, send_data data = some frame ∧
      (v < 0 → frame[2 + i]? = some 0) ∧
      (255 < v → frame[2 + i]? = some 255) ∧
      (0 ≤ v → v ≤ 255 → frame[2 + i]? = some v.toNat) := by
  refine ⟨_, send_data_eq_some data hlen, fun hneg => ?_, fun hbig => ?_, fun h0 h255 => ?_⟩
  · rw [frame_getElem data i v hv]
    unfold clampPWM
    rw [if_pos (by exact_mod_cast hneg)]
    rfl
  · rw [frame_getElem data i v hv]
    unfold clampPWM
    rw [if_neg (by simp [MIN_PWM]; omega), if_pos (by exact_mod_cast hbig)]
    rfl
  · rw [frame_getElem data i v hv]
    unfold clampPWM
    rw [if_neg (by simp [MIN_PWM]; omega), if_neg (by simp [MAX_PWM]; omega)]

/-- Witness for the amended C8 on the payload `[-5, 300, 7]`: the encoder
emits the frame `AA 03 00 FF 07 F8 55`, with wire bytes 0, 255 and 7 at
positions 2, 3 and 4. -/
theorem encoder_clamping_witness :
    send_data [-5, 300, 7] = some [0xAA, 3, 0, 255, 7, 248, 0x55] ∧
    ([0xAA, 3, 0, 255, 7, 248, 0x55] : List Nat)[2 + 0]? = some 0 ∧
    ([0xAA, 3, 0, 255, 7, 248, 0x55] : List Nat)[2 + 1]? = some 255 ∧
    ([0xAA, 3, 0, 255, 7, 248, 0x55] : List Nat)[2 + 2]? = some 7 := by
  obtain ⟨f1, hs1, hneg, -, -⟩ := encoder_clamping [-5, 300, 7] (by decide) 0 (-5) (by decide)
  obtain ⟨f2, hs2, -, hbig, -⟩ := encoder_clamping [-5, 300, 7] (by decide) 1 300 (by decide)
  obtain ⟨f3, hs3, -, -, hin⟩ := encoder_clamping [-5, 300, 7] (by decide) 2 7 (by decide)
  have he : send_data [-5, 300, 7] = some [0xAA, 3, 0, 255, 7, 248, 0x55] := by decide
  rw [he] at hs1 hs2 hs3
  rw [(Option.some.inj hs1).symm] at hneg
  rw [(Option.some.inj hs2).symm] at hbig
  rw [(Option.some.inj hs3).symm] at hin
  exact ⟨he, hneg (by decide), hbig (by decide), hin (by decide) (by decide)⟩

/-- Truthiness test applied to one result of `receive_data` in
`receive_thread_task` line 386: `np.any(received_arr) or acknowledgement` —
the array has some nonzero element, or the acknowledgement flag is set. -/
def rxTruthy (res : List Nat × Bool) : Bool :=
  res.1.any (fun b => decide (b ≠ 0)) || res.2

/-- The receiver loop of `receive_thread_task` (lines 378-394): `results i`
is what the `i`-th call of `receive_data` returns; state is (tries,
length of `received_data`, `no_of_success`). The guard is
`len(received_data) < 100 and no_of_tries < 150`; a truthy result is
appended to `received_data`, and `no_of_success` is bumped only on an
acknowledged result. The fuel argument only bounds the recursion: started
at 150 it can never run out before the `tries < 150` guard fails. -/
def receiveLoop (results : Nat → List Nat × Bool) :
    Nat → Nat → Nat → Nat → Nat × Nat × Nat
  | 0, tries, recv, succ => (tries, recv, succ)
  | fuel + 1, tries, recv, succ =>
    if recv < 100 ∧ tries < 150 then
      if rxTruthy (results tries) then
        receiveLoop results fuel (tries + 1) (recv + 1)
          (if (results tries).2 then succ + 1 else succ)
      else
        receiveLoop results fuel (tries + 1) recv succ
    else (tries, recv, succ)

/-- `receive_thread_task`'s loop run from the initial state: no tries, an
empty `received_data`, zero successes. Returns (final tries, final length
of `received_data`, final `no_of_success`). -/
def receive_thread_task (results : Nat → List Nat × Bool) : Nat × Nat × Nat :=
  receiveLoop results 150 0 0 0

/-- C3 counterexample: when every decode attempt fails with a nonzero
payload (CRC mismatches returning `([1], false)`), the loop stops after
100 attempts with 0 successes — the attempts count is not 150 and the
success count is not 100, so failed attempts DO count toward the
100 bound, contrary to the claim. -/
theorem receiver_loop_cex :
    (receive_thread_task (fun _ => ([1], false))).1 = 100 ∧
    (receive_thread_task (fun _ => ([1], false))).2.1 = 100 ∧
    (receive_thread_task (fun _ => ([1], false))).2.2 = 0 := by
  refine ⟨?_, ?_, ?_⟩ <;> decide

lemma receiveLoop_invariant (results : Nat → List Nat × Bool) :
    ∀ (fuel tries recv succ t r s : Nat),
      receiveLoop results fuel tries recv succ = (t, r, s) →
      tries + fuel = 150 → recv ≤ 100 →
      t ≤ 150 ∧ tries ≤ t ∧ (r = 100 ∨ t = 150) ∧ r ≤ 100 ∧
      r = recv + ((List.range' tries (t - tries)).countP fun i => rxTruthy (results i)) ∧
      s = succ + ((List.range' tries (t - tries)).countP fun i => (results i).2) := by
  intro fuel
  induction fuel with
  | zero =>
    intro tries recv succ t r s hrun hfuel hrecv
    simp only [receiveLoop] at hrun
    obtain ⟨rfl, rfl, rfl⟩ : tries = t ∧ recv = r ∧ succ = s := by
      have h1 := congrArg Prod.fst hrun
      have h2 := congrArg (fun x => x.2.1) hrun
      have h3 := congrArg (fun x => x.2.2) hrun
      exact ⟨h1, h2, h3⟩
    refine ⟨by omega, le_refl _, Or.inr (by omega), hrecv, ?_, ?_⟩ <;>
      simp [Nat.sub_self]
  | succ m ih =>
    intro tries recv succ t r s hrun hfuel hrecv
    simp only [receiveLoop] at hrun
    by_cases hguard : recv < 100 ∧ tries < 150
    · rw [if_pos hguard] at hrun
      by_cases htr : rxTruthy (results tries) = true
      · rw [if_pos htr] at hrun
        obtain ⟨ht, htt, hor, hr100, hrc, hsc⟩ :=
          ih (tries + 1) (recv + 1) (if (results tries).2 then succ + 1 else succ)
             t r s hrun (by omega) (by omega)
        have hsplit : t - tries = (t - (tries + 1)) + 1 := by omega
        refine ⟨ht, by omega, hor, hr100, ?_, ?_⟩
        · rw [hsplit, List.range'_succ, List.countP_cons, htr]
          simp only [if_true]
          omega
        · rw [hsplit, List.range'_succ, List.countP_cons]
          by_cases hack : (results tries).2 = true
          · rw [hack] at hsc ⊢
            simp only [if_true] at hsc ⊢
            omega
          · rw [Bool.not_eq_true] at hack
            rw [hack] at hsc ⊢
            simp only [Bool.false_eq_true, if_false] at hsc ⊢
            omega
      · rw [if_neg htr] at hrun
        obtain ⟨ht, htt, hor, hr100, hrc, hsc⟩ :=
          ih (tries + 1) recv succ t r s hrun (by omega) hrecv
        have hsplit : t - tries = (t - (tries + 1)) + 1 := by omega
        have hack : (results tries).2 = false := by
          rw [Bool.not_eq_true] at htr
          unfold rxTruthy at htr
          exact (Bool.or_eq_false_iff.mp htr).2
        refine ⟨ht, by omega, hor, hr100, ?_, ?_⟩
        · rw [hsplit, List.range'_succ, List.countP_cons]
          rw [Bool.not_eq_true] at htr
          rw [htr]
          simp only [Bool.false_eq_true, if_false]
          omega
        · rw [hsplit, List.range'_succ, List.countP_cons, hack]
          simp only [Bool.false_eq_true, if_false]
          omega
    · rw [if_neg hguard] at hrun
      obtain ⟨rfl, rfl, rfl⟩ : tries = t ∧ recv = r ∧ succ = s := by
        have h1 := congrArg Prod.fst hrun
        have h2 := congrArg (fun x => x.2.1) hrun
        have h3 := congrArg (fun x => x.2.2) hrun
        exact ⟨h1, h2, h3⟩
      have hstop : recv = 100 := by omega
      refine ⟨by omega, le_refl _, Or.inl hstop, by omega, ?_, ?_⟩ <;>
        simp [Nat.sub_self]

/-- C3 amended: the receiver loop continues until the number of recorded
results reaches 100 or the number of attempts reaches 150, whichever comes
first — where a result is recorded exactly when its decoded array contains
a nonzero byte or its acknowledgement flag is set, so failed decode
attempts with a nonzero payload DO count toward the 100 bound; the success
counter `no_of_success` counts only the acknowledged attempts and does not
itself bound the loop. -/
theorem receiver_loop_bound (results : Nat → List Nat × Bool)
    (t r s : Nat) (hrun : receive_thread_task results = (t, r, s)) :
    (r = 100 ∨ t = 150) ∧ t ≤ 150 ∧ r ≤ 100 ∧
    r = ((List.range' 0 t).countP fun i => rxTruthy (results i)) ∧
    s = ((List.range' 0 t).countP fun i => (results i).2) := by
  obtain ⟨ht, _, hor, hr100, hrc, hsc⟩ :=
    receiveLoop_invariant results 150 0 0 0 t r s hrun (by omega) (by omega)
  simp only [Nat.sub_zero, Nat.zero_add] at hrc hsc
  exact ⟨hor, ht, hr100, hrc, hsc⟩

/-- Witness for the amended C3: with every attempt succeeding (empty array,
acknowledgement true), the loop records 100 results in 100 attempts,
all of them successes. -/
theorem receiver_loop_bound_witness :
    ((100 = 100 ∨ (100 : Nat) = 150) ∧ (100 : Nat) ≤ 150 ∧ (100 : Nat) ≤ 100 ∧
      (100 : Nat) = ((List.range' 0 100).countP fun _ => rxTruthy ([], true)) ∧
      (100 : Nat) = ((List.range' 0 100).countP fun _ => (true : Bool))) :=
  receiver_loop_bound (fun _ => ([], true)) 100 100 100 (by decide)

end B4
